import Mathlib

/-!
# Verification of the MA-GenTA targeted probe design pipeline

Shallow embedding of the probe filtering / selection engine of
`targeted_probe_design.py` (repository TheJacksonLaboratory/MA-GenTA),
together with proofs and refutations of the specification's claims about it.

Conventions:
* Python strings are Lean `String`s; numeric hit attributes (GC percentage,
  identity percentage) are `Rat`; counts and lengths are `Nat`.
* Python `str.join` is embedded as `joinSep`; `enumerate` as `List.enum`
  (both 0-based); `range(a, b)` as `List.range' a (b - a)`.
* The sqlite layer (`tprobe.SqliteIO`) and the file writer
  (`tprobe.utils.write_out_file`) are not part of the two source files of the
  repository; where their behaviour decides a claim, the corresponding
  definition is modelled from the spec and marked as such in its doc comment.
-/

/-- Python `sep.join(xs)`: concatenation of `xs` with `sep` between elements. -/
def joinSep (sep : String) : List String → String
  | [] => ""
  | [x] => x
  | x :: y :: ys => x ++ sep ++ joinSep sep (y :: ys)

/-- Concatenation of character lists with a single separator character between
elements (the `List Char` image of `joinSep`). -/
def joinChars (sep : Char) : List (List Char) → List Char
  | [] => []
  | [x] => x
  | x :: y :: ys => x ++ sep :: joinChars sep (y :: ys)

/-- Prepend a character onto the first group of a split result. -/
def consHead (a : Char) : List (List Char) → List (List Char)
  | [] => [[a]]
  | g :: gs => (a :: g) :: gs

/-- Split a character list at every occurrence of `sep` (the inverse of
`joinChars` on separator-free parts). -/
def splitSep (sep : Char) : List Char → List (List Char)
  | [] => [[]]
  | a :: rest =>
    if a = sep then [] :: splitSep sep rest
    else consHead a (splitSep sep rest)

/-- `p` occurs as a contiguous substring of `s` (Python `p in s`,
SQL `s LIKE "%p%"` for a wildcard-free `p`). -/
def isSubstr (p s : String) : Bool := decide (p.data <:+: s.data)

/-! ## Data model: one blast hit row as stored in the cluster database

Default blastn fields are `qseqid, sseqid, pident, length` (plus extra
statistic fields, irrelevant to the filters); the pipeline appends the
derived `gc_pct` and `is_musicc` columns, and the filter view exposes the
probe sequence as `probe_seq`. -/

structure DbRow where
  qseqid : String
  sseqid : String
  pident : Rat
  length : Nat
  gc_pct : Rat
  is_musicc : Nat
  probe_seq : String
deriving DecidableEq, Repr

/-- The configuration thresholds read by `filter_probe_seqs` from `CONFIG`:
`gc_percent.min_percent`, `gc_percent.max_percent`, `general.probe_length`,
`filters.trna_list`. -/
structure FilterCfg where
  gc_min : Rat
  gc_max : Rat
  probe_length : Nat
  trna_list : List String
deriving DecidableEq, Repr

/-! ## filter_probe_seqs -/

/-- The literal ` AND (...)` tail that `filter_probe_seqs` appends to the WHERE
clause: `' AND ('+ ' AND '.join(trna_wheres) +')'`. -/
def trna_where_def (trna_list : List String) : String :=
  " AND (" ++
    joinSep " AND " (trna_list.map fun t => "sseqid NOT LIKE \"%" ++ t ++ "%\"")
    ++ ")"

/-- The WHERE clause text assembled by `filter_probe_seqs`
(`where_def = ' AND '.join(wheres) + trna_where_def`); the numeric
configuration values arrive already stringified by `str.format`. -/
def where_def (gc_min gc_max probe_length cluster_id : String)
    (trna_list : List String) : String :=
  let trna_wheres := trna_list.map fun t => "sseqid NOT LIKE \"%" ++ t ++ "%\""
  let wheres :=
    ["gc_pct between \"" ++ gc_min ++ "\" and \"" ++ gc_max ++ "\"",
     "pident=" ++ "100",
     "length=" ++ probe_length,
     "qseqid like \"" ++ cluster_id ++ "%\""] ++ trna_wheres
  joinSep " AND " wheres ++ trna_where_def trna_list

/-- The row predicate expressed by the WHERE clause of the view created by
`filter_probe_seqs`: GC within the inclusive bounds, identity exactly 100,
alignment length exactly `probe_length`, `qseqid` prefixed by the cluster id
(`LIKE "cid%"`), and `sseqid` containing none of the tRNA substrings
(`NOT LIKE "%t%"`; the source emits this clause twice — in `wheres` and again
in `trna_where_def` — which is an idempotent conjunction). Evaluation of the
SQL over stored rows is modelled from the spec's relational-store contract. -/
def filterWhere (cfg : FilterCfg) (cluster_id : String) (r : DbRow) : Prop :=
  (cfg.gc_min ≤ r.gc_pct ∧ r.gc_pct ≤ cfg.gc_max) ∧
  r.pident = 100 ∧
  r.length = cfg.probe_length ∧
  cluster_id.data <+: r.qseqid.data ∧
  ∀ t ∈ cfg.trna_list, ¬ (t.data <:+: r.sseqid.data)

instance filterWhereDec (cfg : FilterCfg) (cid : String) (r : DbRow) :
    Decidable (filterWhere cfg cid r) := by
  unfold filterWhere; infer_instance

/-- The rows of the view created by `filter_probe_seqs`:
`SELECT ... WHERE <where_def> GROUP BY qseqid HAVING count(qseqid)=1`.
Rows passing the WHERE clause are grouped by `qseqid` and only groups of
exactly one row survive (the single row of each such group).
Modelled from the spec: execution happens in sqlite through `SqliteIO`,
whose module is outside the two source files. -/
def filter_probe_seqs (cfg : FilterCfg) (cluster_id : String)
    (rows : List DbRow) : List DbRow :=
  let surv := rows.filter fun r => decide (filterWhere cfg cluster_id r)
  surv.filter fun r => (surv.filter fun s => s.qseqid == r.qseqid).length == 1

/-! ## generate_musicc_regex and is_musicc classification -/

/-- `re.search` of the pattern `'(' + '|'.join(musiccs) + ')'` built by
`generate_musicc_regex`, for configuration entries that are regex-literal
names: with an empty list the pattern is `'()'`, which matches the empty
string inside every subject, so the search always succeeds; with a nonempty
list the search succeeds iff some entry occurs as a substring. -/
def musicc_search (musiccs : List String) (s : String) : Bool :=
  match musiccs with
  | [] => true
  | _ :: _ => musiccs.any fun p => isSubstr p s

/-- The annotation `is_musicc = 1 if musicc_re.search(sseqid) else 0` from
`targeted_genome_bin_probes`. -/
def is_musicc_of (musiccs : List String) (sseqid : String) : Nat :=
  if musicc_search musiccs sseqid then 1 else 0

/-! ## export_final_sets -/

/-- `record_count = record_count if record_count >= final_amount else
final_amount`: the sampling universe size used by the random branch. -/
def inflated_count (record_count final_amount : Nat) : Nat :=
  if record_count ≥ final_amount then record_count else final_amount

/-- `range(1, n+1)` as drawn from by `random.sample`. -/
def sample_population (n : Nat) : List Nat := List.range' 1 n

/-- A possible outcome of Python `random.sample(pop, k)`: `k` distinct
elements of `pop` (the call raises `ValueError` instead iff `k` exceeds the
population size). -/
def validSample (pop : List Nat) (k : Nat) (s : List Nat) : Prop :=
  s.length = k ∧ s.Nodup ∧ ∀ i ∈ s, i ∈ pop

/-- The selected row numbers: `random.sample(range(1, count+1), k=amount)`
outcome when randomizing, else `[r for r in range(1, final_amount+1)]`. -/
def row_nums_of (random_picks : Bool) (final_amount : Nat)
    (sample : List Nat) : List Nat :=
  if random_picks then sample else List.range' 1 final_amount

/-- `[row for num, row in enumerate(probes_selector) if num in row_nums]`:
keeps the rows whose 0-based position is listed in `nums`, in order. -/
def selectRows {α : Type} (rows : List α) (nums : List Nat) : List α :=
  (rows.enum.filter fun p => nums.contains p.1).map Prod.snd

/-- One row of the filter view as consumed by the export loop: the non-sequence
field values in view-column order, and the `probe_seq` value popped off for
the record body. -/
structure ViewRow where
  vals : List String
  probe_seq : String
deriving DecidableEq, Repr

/-- Serialization of one selected row by `export_final_sets`:
`head = '>' + ';'.join(row.values())` after popping `probe_seq`, then
`os.linesep.join([head, seq, ''])` (linesep is `"\n"` on the POSIX hosts the
pipeline targets). -/
def serializeRecord (r : ViewRow) : String :=
  joinSep "\n" [">" ++ joinSep ";" r.vals, r.probe_seq, ""]

/-- The sequence of chunks appended to one class's output file by
`export_final_sets` (per `which, where` iteration): an initial
`write_out_file('', ...)` of the empty string when the class has zero rows
(the following bare `next` statement is a no-op, so execution falls through),
then one serialized record per selected row.
Modelled from the spec: `write_out_file` lives in `tprobe.utils`, outside the
two source files; the file artifact is modelled as the list of appended
chunks (a nonempty list means the file exists). -/
def export_final_sets_class (rows : List ViewRow) (final_amount : Nat)
    (random_picks : Bool) (sample : List Nat) : List String :=
  (if rows.length = 0 then [""] else []) ++
    (selectRows rows (row_nums_of random_picks final_amount sample)).map
      serializeRecord

/-! ## import_blasts_to_db and the shared DB_CFG state -/

/-- The `DB_CFG` configuration entries read by the pipeline:
`clusterdb.name`, `blastdb.name`, `blastn.fields`, `probes_table.name`,
`probes_table.cols` (an ordered name→datatype mapping), `probes_view.name`,
`probes_view.cols`. -/
structure DbCfg where
  clusterdb_name : String
  blastdb_name : String
  blastn_fields : List String
  probes_table_name : String
  probes_table_cols : List (String × String)
  probes_view_name : String
  probes_view_cols : List String
deriving DecidableEq, Repr

/-- The in-place loop of `import_blasts_to_db` over the un-copied
`DB_CFG` column mapping: each blastn field not already a column key is
appended with an empty datatype string. -/
def addBlastnFields (cols : List (String × String)) :
    List String → List (String × String)
  | [] => cols
  | f :: fs =>
    if f ∈ cols.map Prod.fst then addBlastnFields cols fs
    else addBlastnFields (cols ++ [(f, "")]) fs

/-- The net effect of `import_blasts_to_db` on the process-wide `DB_CFG`
(state-passing model of the in-place dict mutation): only
`probes_table.cols` changes, by `addBlastnFields` over the configured
blastn field list. -/
def import_blasts_to_db_cfg (cfg : DbCfg) (config_blastn_fields : List String) :
    DbCfg :=
  { cfg with
    probes_table_cols := addBlastnFields cfg.probes_table_cols
      config_blastn_fields }

/-! ## GC / MUSiCC annotation loop of targeted_genome_bin_probes -/

/-- One blast hit row during annotation: `pb[0]` (`qseqid`), `pb[1]`
(`sseqid`), and the `(gc_pct, is_musicc)` pairs appended by `pb.append`. -/
structure Hit where
  qid : String
  sseqid : String
  ann : List (Rat × Nat)
deriving DecidableEq, Repr

/-- Association-list lookup for the `probes_gc` cache dict. -/
def lookupGc : List (String × Rat) → String → Option Rat
  | [], _ => none
  | (k, v) :: rest, q => if k = q then some v else lookupGc rest q

/-- `if pb[0] not in probes_gc: probes_gc[pb[0]] = pct_gc(seq)` — insert the
freshly computed GC value into the cache on a miss, recording the
invocation of `pct_gc` in the call log; on a hit, change nothing. -/
def gcUpdate (gcv : Rat) (qid : String)
    (st : List (String × Rat) × List String) :
    List (String × Rat) × List String :=
  match lookupGc st.1 qid with
  | some _ => st
  | none => ((qid, gcv) :: st.1, st.2 ++ [qid])

/-- The inner `for pb in probe_blasts` loop for one fasta entry `(qid, seq)`
with `gcv = pct_gc(seq)`: each row whose `pb[0]` equals `qid` gets
`probes_gc[pb[0]]` and the MUSiCC flag appended, after the cache-miss
update. Returns the updated rows and the `(cache, call log)` state. -/
def annotRows (gcv : Rat) (mus : String → Bool) (qid : String) :
    List Hit → (List (String × Rat) × List String) →
    List Hit × (List (String × Rat) × List String)
  | [], st => ([], st)
  | pb :: rest, st =>
    if pb.qid = qid then
      let st1 := gcUpdate gcv qid st
      let g := (lookupGc st1.1 qid).getD 0
      let pb1 : Hit :=
        { pb with ann := pb.ann ++ [(g, if mus pb.sseqid then 1 else 0)] }
      let res := annotRows gcv mus qid rest st1
      (pb1 :: res.1, res.2)
    else
      let res := annotRows gcv mus qid rest st
      (pb :: res.1, res.2)

/-- `qid = header.replace('>','')`: every `'>'` character removed from the
fasta header. -/
def fastaQid (header : String) : String :=
  String.mk (header.data.filter fun c => c ≠ '>')

/-- The outer `for header, seq in read_fasta(probes_file)` loop: an entry is
skipped when its `qid` is not among the blast query ids, else the inner row
loop runs with `pct_gc` modelled by the pure function `gc`. -/
def annotateFasta (gc : String → Rat) (mus : String → Bool)
    (ids : List String) :
    List (String × String) → List Hit →
    (List (String × Rat) × List String) →
    List Hit × (List (String × Rat) × List String)
  | [], rows, st => (rows, st)
  | (header, seq) :: fas, rows, st =>
    if fastaQid header ∈ ids then
      annotateFasta gc mus ids fas
        (annotRows (gc seq) mus (fastaQid header) rows st).1
        (annotRows (gc seq) mus (fastaQid header) rows st).2
    else
      annotateFasta gc mus ids fas rows st

/-- The GC%/MUSiCC annotation stage of `targeted_genome_bin_probes`:
`probe_ids = set(pb[0] for pb in probe_blasts)`, `probes_gc = {}`, then the
fasta loop. `pct_gc` is the pure `gc` parameter (its module is outside the
two source files; the claims below do not depend on its value). Returns the
annotated rows, the final cache and the `pct_gc` call log. -/
def targetedAnnotate (gc : String → Rat) (patterns : List String)
    (fasta : List (String × String)) (rows : List Hit) :
    List Hit × (List (String × Rat) × List String) :=
  annotateFasta gc (fun s => musicc_search patterns s) (rows.map Hit.qid)
    fasta rows ([], [])

/-! ## Parsing the export record format (modelled from the spec) -/

/-- Modelled from the spec: parse one record of the export format back into
(header fields, sequence) — the text before the first newline, stripped of
its leading `'>'`, split on `';'`, and the text after the first newline with
the final newline terminator removed. The spec's round-trip property is
stated against this parser. -/
def parseRecord (r : String) : List String × String :=
  let cs := r.data
  let hd := cs.takeWhile fun c => c ≠ '\n'
  let rest := (cs.dropWhile fun c => c ≠ '\n').drop 1
  (((splitSep ';' (hd.drop 1)).map fun l => String.mk l),
    String.mk rest.dropLast)

/-! ## General helper lemmas -/

theorem string_mk_data (s : String) : String.mk s.data = s := rfl

theorem final_le_inflated (rc fa : Nat) : fa ≤ inflated_count rc fa := by
  unfold inflated_count
  split
  · omega
  · omega

theorem sample_population_length (n : Nat) :
    (sample_population n).length = n := by
  simp [sample_population]

theorem addBlastnFields_keys_mono {cols : List (String × String)}
    {fs : List String} {k : String} (h : k ∈ cols.map Prod.fst) :
    k ∈ (addBlastnFields cols fs).map Prod.fst := by
  induction fs generalizing cols with
  | nil => exact h
  | cons f fs ih =>
    unfold addBlastnFields
    by_cases hf : f ∈ cols.map Prod.fst
    · rw [if_pos hf]; exact ih h
    · rw [if_neg hf]
      exact ih (by simp [h])

theorem addBlastnFields_mem_add {cols : List (String × String)}
    {fs : List String} {f : String} (h : f ∈ fs) :
    f ∈ (addBlastnFields cols fs).map Prod.fst := by
  induction fs generalizing cols with
  | nil => cases h
  | cons a as ih =>
    unfold addBlastnFields
    by_cases ha : a ∈ cols.map Prod.fst
    · rw [if_pos ha]
      rcases List.mem_cons.mp h with rfl | hmem
      · exact addBlastnFields_keys_mono ha
      · exact ih hmem
    · rw [if_neg ha]
      rcases List.mem_cons.mp h with rfl | hmem
      · exact addBlastnFields_keys_mono (by simp)
      · exact ih hmem

theorem addBlastnFields_keeps (cols : List (String × String))
    (fs : List String) : cols <+: addBlastnFields cols fs := by
  induction fs generalizing cols with
  | nil => exact List.prefix_refl cols
  | cons f fs ih =>
    unfold addBlastnFields
    by_cases hf : f ∈ cols.map Prod.fst
    · rw [if_pos hf]; exact ih cols
    · rw [if_neg hf]
      exact (List.prefix_append cols [(f, "")]).trans (ih (cols ++ [(f, "")]))

theorem addBlastnFields_mem_src {cols : List (String × String)}
    {fs : List String} {kv : String × String}
    (h : kv ∈ addBlastnFields cols fs) :
    kv ∈ cols ∨ (kv.1 ∈ fs ∧ kv.2 = "") := by
  induction fs generalizing cols with
  | nil => exact Or.inl h
  | cons f fs ih =>
    unfold addBlastnFields at h
    by_cases hf : f ∈ cols.map Prod.fst
    · rw [if_pos hf] at h
      rcases ih h with h1 | ⟨h2, h3⟩
      · exact Or.inl h1
      · exact Or.inr ⟨by simp [h2], h3⟩
    · rw [if_neg hf] at h
      rcases ih h with h1 | ⟨h2, h3⟩
      · rcases List.mem_append.mp h1 with h4 | h4
        · exact Or.inl h4
        · simp only [List.mem_singleton] at h4
          subst h4
          exact Or.inr ⟨by simp, rfl⟩
      · exact Or.inr ⟨by simp [h2], h3⟩

/-! ## Claim theorems (first batch) -/

/-- C5: with an empty `trna_list`, `filter_probe_seqs` assembles a WHERE
clause ending in the empty parenthesized conjunction ` AND ()`, which is not
a satisfiable predicate but invalid SQL (sqlite rejects `()` as a syntax
error), so the view build fails instead of treating the exclusion clause as
vacuously true. -/
theorem where_def_empty_trna_list :
    where_def "40" "60" "40" "binA" [] =
      "gc_pct between \"40\" and \"60\" AND pident=100 AND length=40" ++
        " AND qseqid like \"binA%\" AND ()" := by
  rfl

/-- C2 (code bug): with one available row and `final_probe_amount = 1` and
`randomize` false, `export_final_sets` emits no record at all: `row_nums`
is the 1-based `[1]` but `enumerate` numbers the rows from 0, so the first
view row is never selected and `min(A, R) = 1` rows are expected where 0 are
produced. -/
theorem export_positional_skips_first_row :
    export_final_sets_class [ViewRow.mk ["q1", "55", "0"] "ACGT"] 1 false []
        = [] ∧
      min ([ViewRow.mk ["q1", "55", "0"] "ACGT"] : List ViewRow).length 1
        = 1 := by
  constructor
  · rfl
  · rfl

/-- C3 (code bug): with one available row, `final_probe_amount = 1` and
`randomize` true, the only possible `random.sample` outcome from
`range(1, 2)` is `[1]`, yet the selection emits zero rows instead of the
claimed one distinct row: the sampled row numbers are 1-based while
`enumerate` indices are 0-based. -/
theorem export_random_skips_first_row (s : List Nat)
    (hs : validSample (sample_population (inflated_count 1 1)) 1 s) :
    export_final_sets_class [ViewRow.mk ["q1"] "ACGT"] 1 true s = [] := by
  obtain ⟨hlen, _, hmem⟩ := hs
  have hs1 : s = [1] := by
    match s, hlen with
    | [a], _ =>
      have ha := hmem a (by simp)
      simp [sample_population, inflated_count, List.range'] at ha
      simp [ha]
  subst hs1
  rfl

theorem export_random_skips_first_row_witness :
    validSample (sample_population (inflated_count 1 1)) 1 [1] ∧
      export_final_sets_class [ViewRow.mk ["q1"] "ACGT"] 1 true [1] = [] :=
  ⟨by constructor <;> simp [sample_population, inflated_count, List.range'],
   export_random_skips_first_row [1]
     (by constructor <;> simp [sample_population, inflated_count, List.range'])⟩

/-- C6: when fewer rows are available than requested (`A < R`) and
`randomize` is true, the sampling universe is inflated to `range(1, R+1)`,
i.e. exactly the `R` index positions `1..R`, and `random.sample` draws
`k = R ≤ R` elements, so no `ValueError` (nor any index access) occurs. -/
theorem export_inflated_sample_universe (A R : Nat) (h : A < R) :
    sample_population (inflated_count A R) = List.range' 1 R ∧
      R ≤ (sample_population (inflated_count A R)).length := by
  have hi : inflated_count A R = R := by
    unfold inflated_count
    rw [if_neg (by omega)]
  rw [hi]
  exact ⟨rfl, by rw [sample_population_length]⟩

theorem export_inflated_sample_universe_witness :
    1 < 2 ∧
      (sample_population (inflated_count 1 2) = List.range' 1 2 ∧
        2 ≤ (sample_population (inflated_count 1 2)).length) :=
  ⟨by omega, export_inflated_sample_universe 1 2 (by omega)⟩

/-- C7: a class with zero available rows still gets its output artifact: the
loop appends the empty string to the file (creating it) and, since the bare
`next` statement does not skip the rest of the iteration, falls through to a
selection over the empty row set which appends nothing further; the sampling
precondition `k ≤ |population|` holds, so no error is raised and the file
content is exactly the single empty chunk. -/
theorem export_empty_class_writes_empty_file (R : Nat) (rp : Bool)
    (s : List Nat) :
    export_final_sets_class [] R rp s = [""] ∧
      R ≤ (sample_population (inflated_count 0 R)).length := by
  refine ⟨rfl, ?_⟩
  rw [sample_population_length]
  exact final_le_inflated 0 R

/-- C4 (counterexample): with an empty copy-class pattern list the compiled
pattern is `'()'`, which matches every subject identifier, so the
classification of `"binA_00123"` is 1, not the claimed 0. -/
theorem musicc_empty_list_cex : ¬ (is_musicc_of [] "binA_00123" = 0) := by
  decide

/-- C4 (amended): an empty pattern list compiles to `'()'`, which matches the
empty string inside every identifier, so classification is always true
(`is_musicc = 1`); for a nonempty pattern list classification is true iff
the identifier contains at least one configured pattern as a substring. -/
theorem musicc_classification (ps : List String) (s : String) :
    is_musicc_of [] s = 1 ∧
      (ps ≠ [] → (is_musicc_of ps s = 1 ↔ ∃ p ∈ ps, p.data <:+: s.data)) := by
  constructor
  · rfl
  · intro hps
    match ps, hps with
    | a :: t, _ =>
      simp only [is_musicc_of, musicc_search]
      constructor
      · intro h1
        by_cases hany : (a :: t).any (fun p => isSubstr p s) = true
        · obtain ⟨p, hp, hsub⟩ := List.any_eq_true.mp hany
          exact ⟨p, hp, of_decide_eq_true hsub⟩
        · rw [if_neg (by simpa using hany)] at h1
          cases h1
      · intro ⟨p, hp, hsub⟩
        have hany : (a :: t).any (fun p => isSubstr p s) = true :=
          List.any_eq_true.mpr ⟨p, hp, decide_eq_true hsub⟩
        rw [if_pos (by simpa using hany)]

theorem musicc_classification_witness :
    is_musicc_of [] "binA_rrnB" = 1 ∧
      (is_musicc_of ["rrn"] "binA_rrnB" = 1 ↔
        ∃ p ∈ ["rrn"], p.data <:+: "binA_rrnB".data) :=
  ⟨(musicc_classification ["rrn"] "binA_rrnB").1,
   (musicc_classification ["rrn"] "binA_rrnB").2 (by simp)⟩

/-- C10: `import_blasts_to_db` updates the shared `DB_CFG` probes-table
column mapping and nothing else: the original columns stay (as a prefix, in
order), every configured extra blastn field name ends up among the column
keys, every added entry carries the empty datatype string, and all other
configuration entries are unchanged; in the running process the mutation is
in place on the global `DB_CFG`, modelled here as the returned state used by
all later calls. -/
theorem import_blasts_to_db_cfg_frame (cfg : DbCfg) (fs : List String) :
    (import_blasts_to_db_cfg cfg fs).clusterdb_name = cfg.clusterdb_name ∧
    (import_blasts_to_db_cfg cfg fs).blastdb_name = cfg.blastdb_name ∧
    (import_blasts_to_db_cfg cfg fs).blastn_fields = cfg.blastn_fields ∧
    (import_blasts_to_db_cfg cfg fs).probes_table_name
      = cfg.probes_table_name ∧
    (import_blasts_to_db_cfg cfg fs).probes_view_name
      = cfg.probes_view_name ∧
    (import_blasts_to_db_cfg cfg fs).probes_view_cols
      = cfg.probes_view_cols ∧
    cfg.probes_table_cols <+:
      (import_blasts_to_db_cfg cfg fs).probes_table_cols ∧
    (∀ f ∈ fs,
      f ∈ (import_blasts_to_db_cfg cfg fs).probes_table_cols.map Prod.fst) ∧
    (∀ kv ∈ (import_blasts_to_db_cfg cfg fs).probes_table_cols,
      kv ∈ cfg.probes_table_cols ∨ (kv.1 ∈ fs ∧ kv.2 = "")) := by
  refine ⟨rfl, rfl, rfl, rfl, rfl, rfl, ?_, ?_, ?_⟩
  · exact addBlastnFields_keeps _ _
  · intro f hf
    exact addBlastnFields_mem_add hf
  · intro kv hkv
    exact addBlastnFields_mem_src hkv

theorem import_blasts_to_db_cfg_frame_witness :
    (import_blasts_to_db_cfg
        (DbCfg.mk "cluster.db" "blastdb" ["qseqid"] "probes"
          [("qseqid", "TEXT")] "probes_filtered" ["qseqid"])
        ["qseqid", "qseq"]).clusterdb_name = "cluster.db" ∧
      ("qseq", "") ∈ (import_blasts_to_db_cfg
        (DbCfg.mk "cluster.db" "blastdb" ["qseqid"] "probes"
          [("qseqid", "TEXT")] "probes_filtered" ["qseqid"])
        ["qseqid", "qseq"]).probes_table_cols :=
  ⟨(import_blasts_to_db_cfg_frame _ _).1, by decide⟩

/-- C1: every row of the view created by `filter_probe_seqs` has identity
exactly 100, alignment length exactly the configured probe length, GC within
the inclusive bounds, `qseqid` prefixed by the cluster id, `sseqid` free of
every excluded tRNA substring, and is the unique survivor of the WHERE
clause for its `qseqid`; a `qseqid` with more than one surviving row does
not appear in the view at all. -/
theorem filter_probe_seqs_sound (cfg : FilterCfg) (cid : String)
    (rows : List DbRow) (r : DbRow)
    (hr : r ∈ filter_probe_seqs cfg cid rows) :
    (r.pident = 100 ∧ r.length = cfg.probe_length ∧
      cfg.gc_min ≤ r.gc_pct ∧ r.gc_pct ≤ cfg.gc_max ∧
      cid.data <+: r.qseqid.data ∧
      (∀ t ∈ cfg.trna_list, ¬ (t.data <:+: r.sseqid.data))) ∧
    ((rows.filter fun x => decide (filterWhere cfg cid x)).filter
        (fun s => s.qseqid == r.qseqid)).length = 1 ∧
    ∀ q : String,
      1 < ((rows.filter fun x => decide (filterWhere cfg cid x)).filter
          (fun s => s.qseqid == q)).length →
        r.qseqid ≠ q := by
  unfold filter_probe_seqs at hr
  rw [List.mem_filter] at hr
  obtain ⟨hsurv, hcount⟩ := hr
  have hc :
      ((rows.filter fun x => decide (filterWhere cfg cid x)).filter
        (fun s => s.qseqid == r.qseqid)).length = 1 := by
    simpa using hcount
  rw [List.mem_filter] at hsurv
  obtain ⟨_, hw⟩ := hsurv
  have hwp := of_decide_eq_true hw
  obtain ⟨⟨h1, h2⟩, h3, h4, h5, h6⟩ := hwp
  refine ⟨⟨h3, h4, h1, h2, h5, h6⟩, hc, ?_⟩
  intro q hq hrq
  rw [hrq] at hc
  omega

theorem filter_probe_seqs_sound_witness :
    (DbRow.mk "binA_p1" "binA_seq7" 100 40 55 0 "ACGT") ∈
      filter_probe_seqs (FilterCfg.mk 40 60 40 ["tRNA"]) "binA"
        [DbRow.mk "binA_p1" "binA_seq7" 100 40 55 0 "ACGT"] ∧
    (((DbRow.mk "binA_p1" "binA_seq7" 100 40 55 0 "ACGT").pident = 100 ∧
      (DbRow.mk "binA_p1" "binA_seq7" 100 40 55 0 "ACGT").length
        = (FilterCfg.mk 40 60 40 ["tRNA"]).probe_length ∧
      (FilterCfg.mk 40 60 40 ["tRNA"]).gc_min
        ≤ (DbRow.mk "binA_p1" "binA_seq7" 100 40 55 0 "ACGT").gc_pct ∧
      (DbRow.mk "binA_p1" "binA_seq7" 100 40 55 0 "ACGT").gc_pct
        ≤ (FilterCfg.mk 40 60 40 ["tRNA"]).gc_max ∧
      "binA".data <+:
        (DbRow.mk "binA_p1" "binA_seq7" 100 40 55 0 "ACGT").qseqid.data ∧
      (∀ t ∈ (FilterCfg.mk 40 60 40 ["tRNA"]).trna_list,
        ¬ (t.data <:+:
          (DbRow.mk "binA_p1" "binA_seq7" 100 40 55 0 "ACGT").sseqid.data))) ∧
    (([DbRow.mk "binA_p1" "binA_seq7" 100 40 55 0 "ACGT"].filter
        fun x => decide (filterWhere (FilterCfg.mk 40 60 40 ["tRNA"]) "binA" x)).filter
        (fun s => s.qseqid
          == (DbRow.mk "binA_p1" "binA_seq7" 100 40 55 0 "ACGT").qseqid)).length
      = 1 ∧
    ∀ q : String,
      1 < (([DbRow.mk "binA_p1" "binA_seq7" 100 40 55 0 "ACGT"].filter
          fun x => decide (filterWhere (FilterCfg.mk 40 60 40 ["tRNA"]) "binA" x)).filter
          (fun s => s.qseqid == q)).length →
        (DbRow.mk "binA_p1" "binA_seq7" 100 40 55 0 "ACGT").qseqid ≠ q) :=
  ⟨by decide,
   filter_probe_seqs_sound (FilterCfg.mk 40 60 40 ["tRNA"]) "binA"
     [DbRow.mk "binA_p1" "binA_seq7" 100 40 55 0 "ACGT"]
     (DbRow.mk "binA_p1" "binA_seq7" 100 40 55 0 "ACGT") (by decide)⟩


/-! ## Lemmas about the export record format -/

theorem joinSep_data (sep : String) (c : Char) (hc : sep.data = [c])
    (l : List String) :
    (joinSep sep l).data = joinChars c (l.map String.data) := by
  induction l with
  | nil => rfl
  | cons x xs ih =>
    cases xs with
    | nil => rfl
    | cons y ys =>
      simp only [joinSep, joinChars, List.map_cons, String.data_append, hc,
        ih, List.append_assoc, List.singleton_append]

theorem serializeRecord_data (r : ViewRow) :
    (serializeRecord r).data =
      ('>' :: joinChars ';' (r.vals.map String.data)) ++
        '\n' :: (r.probe_seq.data ++ ['\n']) := by
  unfold serializeRecord
  simp only [joinSep, String.data_append,
    joinSep_data ";" ';' rfl r.vals]
  simp

theorem takeWhile_append_of_mem {p : Char → Bool} (h : List Char) (c : Char)
    (t : List Char) (hh : ∀ x ∈ h, p x = true) (hc : p c = false) :
    (h ++ c :: t).takeWhile p = h ∧ (h ++ c :: t).dropWhile p = c :: t := by
  induction h with
  | nil => simp [List.takeWhile_cons, List.dropWhile_cons, hc]
  | cons a as ih =>
    have ha : p a = true := hh a (by simp)
    have has : ∀ x ∈ as, p x = true := fun x hx => hh x (by simp [hx])
    obtain ⟨ih1, ih2⟩ := ih has
    constructor
    · simp [List.takeWhile_cons, ha, ih1]
    · simp [List.dropWhile_cons, ha, ih2]

theorem not_mem_joinChars {c sep : Char} {parts : List (List Char)}
    (hne : c ≠ sep) (h : ∀ p ∈ parts, c ∉ p) : c ∉ joinChars sep parts := by
  induction parts with
  | nil => simp [joinChars]
  | cons x xs ih =>
    cases xs with
    | nil =>
      simp only [joinChars]
      exact h x (by simp)
    | cons y ys =>
      simp only [joinChars, List.mem_append, List.mem_cons]
      rintro (hx | hs | hj)
      · exact h x (by simp) hx
      · exact hne hs
      · exact ih (fun p hp => h p (by simp [hp])) hj

theorem consHead_ne_nil (a : Char) (l : List (List Char)) :
    consHead a l ≠ [] := by
  cases l <;> simp [consHead]

theorem splitSep_ne_nil (sep : Char) (l : List Char) :
    splitSep sep l ≠ [] := by
  cases l with
  | nil => simp [splitSep]
  | cons a rest =>
    by_cases ha : a = sep
    · simp [splitSep, ha]
    · simp [splitSep, ha, consHead_ne_nil]

theorem splitSep_no_sep (sep : Char) (x : List Char) (hx : sep ∉ x) :
    splitSep sep x = [x] := by
  induction x with
  | nil => rfl
  | cons a as ih =>
    have ha : ¬ (a = sep) := fun e => hx (by simp [e])
    have has : sep ∉ as := fun m => hx (by simp [m])
    simp only [splitSep, if_neg ha, ih has, consHead]

theorem splitSep_append (sep : Char) (x t : List Char) (hx : sep ∉ x) :
    splitSep sep (x ++ sep :: t) = x :: splitSep sep t := by
  induction x with
  | nil => simp [splitSep]
  | cons a as ih =>
    have ha : ¬ (a = sep) := fun e => hx (by simp [e])
    have has : sep ∉ as := fun m => hx (by simp [m])
    simp only [List.cons_append, splitSep, if_neg ha]
    rw [show splitSep sep (List.append as (sep :: t))
      = as :: splitSep sep t from ih has]
    simp [consHead]

theorem splitSep_joinChars (sep : Char) (parts : List (List Char))
    (hp : parts ≠ []) (hc : ∀ p ∈ parts, sep ∉ p) :
    splitSep sep (joinChars sep parts) = parts := by
  induction parts with
  | nil => cases hp rfl
  | cons x xs ih =>
    cases xs with
    | nil => exact splitSep_no_sep sep x (hc x (by simp))
    | cons y ys =>
      simp only [joinChars]
      rw [splitSep_append sep x _ (hc x (by simp))]
      rw [ih (by simp) (fun p hp2 => hc p (by simp [hp2]))]

theorem map_mk_of_map_data (l : List String) :
    (l.map String.data).map (fun d => String.mk d) = l := by
  induction l with
  | nil => rfl
  | cons x xs ih => simp only [List.map_cons, ih]

/-- C8 (counterexample): a field value containing the `';'` join separator is
not recovered by parsing: the single field `"a;b"` reads back as the two
fields `"a"` and `"b"`. -/
theorem export_record_round_trip_cex :
    parseRecord (serializeRecord (ViewRow.mk ["a;b"] "ACGT"))
      ≠ (["a;b"], "ACGT") := by
  decide

/-- C8 (amended): parsing a serialized record recovers exactly the field
values and the sequence, provided the non-sequence field list is nonempty
and no field value contains the `';'` separator or a line terminator (a
value containing either makes the `';'`-joined header line ambiguous, as the
counterexample shows). -/
theorem export_record_round_trip (r : ViewRow) (hne : r.vals ≠ [])
    (hv : ∀ v ∈ r.vals, ';' ∉ v.data ∧ '\n' ∉ v.data) :
    parseRecord (serializeRecord r) = (r.vals, r.probe_seq) := by
  have hnl : '\n' ∉ '>' :: joinChars ';' (r.vals.map String.data) := by
    simp only [List.mem_cons]
    rintro (h | h)
    · cases h
    · exact not_mem_joinChars (by decide)
        (by
          intro p hp
          obtain ⟨v, hv2, rfl⟩ := List.mem_map.mp hp
          exact (hv v hv2).2) h
  have hwhile := takeWhile_append_of_mem
    (p := fun c => decide (c ≠ '\n'))
    ('>' :: joinChars ';' (r.vals.map String.data)) '\n'
    (r.probe_seq.data ++ ['\n'])
    (by
      intro x hx
      simp only [decide_eq_true_iff]
      intro e
      exact hnl (e ▸ hx))
    (by simp)
  simp only [parseRecord, serializeRecord_data]
  rw [hwhile.1, hwhile.2]
  simp only [List.drop_succ_cons, List.drop_zero, List.dropLast_concat,
    string_mk_data]
  rw [splitSep_joinChars ';' (r.vals.map String.data)
    (by simpa using hne)
    (by
      intro p hp
      obtain ⟨v, hv2, rfl⟩ := List.mem_map.mp hp
      exact (hv v hv2).1)]
  rw [map_mk_of_map_data]

theorem export_record_round_trip_witness :
    ViewRow.vals (ViewRow.mk ["binA_p1", "55", "1"] "ACGT") ≠ [] ∧
      (∀ v ∈ ViewRow.vals (ViewRow.mk ["binA_p1", "55", "1"] "ACGT"),
        ';' ∉ v.data ∧ '\n' ∉ v.data) ∧
      parseRecord (serializeRecord (ViewRow.mk ["binA_p1", "55", "1"] "ACGT"))
        = (["binA_p1", "55", "1"], "ACGT") :=
  ⟨by decide, by decide,
   export_record_round_trip (ViewRow.mk ["binA_p1", "55", "1"] "ACGT")
     (by decide) (by decide)⟩

/-! ## Lemmas about the GC annotation cache -/

/-- Cache extension: every binding present before is still visible after. -/
def CacheLe (c c2 : List (String × Rat)) : Prop :=
  ∀ q v, lookupGc c q = some v → lookupGc c2 q = some v

/-- All GC values appended onto a row agree with the cache entry for its
query id. -/
def AnnOk (cache : List (String × Rat)) (r : Hit) : Prop :=
  ∀ p ∈ r.ann, lookupGc cache r.qid = some p.1

/-- The call log is duplicate-free and every logged query id is cached. -/
def CallsOk (st : List (String × Rat) × List String) : Prop :=
  st.2.Nodup ∧ ∀ q ∈ st.2, ∃ v, lookupGc st.1 q = some v

theorem cacheLe_refl (c : List (String × Rat)) : CacheLe c c :=
  fun _ _ h => h

theorem cacheLe_trans {a b c : List (String × Rat)} (h1 : CacheLe a b)
    (h2 : CacheLe b c) : CacheLe a c :=
  fun q v h => h2 q v (h1 q v h)

theorem annOk_mono {c c2 : List (String × Rat)} {r : Hit}
    (hle : CacheLe c c2) (h : AnnOk c r) : AnnOk c2 r :=
  fun p hp => hle _ _ (h p hp)

theorem gcUpdate_cacheLe (gcv : Rat) (qid : String)
    (st : List (String × Rat) × List String) :
    CacheLe st.1 (gcUpdate gcv qid st).1 := by
  intro q v hv
  unfold gcUpdate
  rcases h : lookupGc st.1 qid with _ | w
  · have e : ¬ (qid = q) := by
      rintro rfl
      rw [h] at hv
      cases hv
    simp only [lookupGc, if_neg e]
    exact hv
  · exact hv

theorem gcUpdate_lookup (gcv : Rat) (qid : String)
    (st : List (String × Rat) × List String) :
    ∃ v, lookupGc (gcUpdate gcv qid st).1 qid = some v := by
  unfold gcUpdate
  rcases h : lookupGc st.1 qid with _ | w
  · exact ⟨gcv, by simp [lookupGc]⟩
  · exact ⟨w, h⟩

theorem gcUpdate_callsOk (gcv : Rat) (qid : String)
    (st : List (String × Rat) × List String) (hc : CallsOk st) :
    CallsOk (gcUpdate gcv qid st) := by
  unfold gcUpdate
  rcases h : lookupGc st.1 qid with _ | w
  · have hnotin : qid ∉ st.2 := by
      intro hmem
      obtain ⟨v, hv⟩ := hc.2 qid hmem
      rw [h] at hv
      cases hv
    constructor
    · simpa [List.nodup_append] using ⟨hc.1, hnotin⟩
    · intro q hq
      simp only [List.mem_append, List.mem_singleton] at hq
      rcases hq with hq | rfl
      · obtain ⟨v, hv⟩ := hc.2 q hq
        by_cases e : qid = q
        · subst e; rw [h] at hv; cases hv
        · exact ⟨v, by simp only [lookupGc, if_neg e]; exact hv⟩
      · exact ⟨gcv, by simp [lookupGc]⟩
  · exact hc

theorem annotRows_spec (gcv : Rat) (mus : String → Bool) (qid : String)
    (rows : List Hit) :
    ∀ (st : List (String × Rat) × List String),
      (∀ r ∈ rows, AnnOk st.1 r) → CallsOk st →
      CacheLe st.1 (annotRows gcv mus qid rows st).2.1 ∧
      CallsOk (annotRows gcv mus qid rows st).2 ∧
      ∀ r ∈ (annotRows gcv mus qid rows st).1,
        AnnOk (annotRows gcv mus qid rows st).2.1 r := by
  induction rows with
  | nil =>
    intro st h hc
    exact ⟨cacheLe_refl _, hc, by simp [annotRows]⟩
  | cons pb rest ih =>
    intro st hAnn hc
    by_cases e : pb.qid = qid
    · have hred : annotRows gcv mus qid (pb :: rest) st =
          (({ pb with ann := pb.ann ++
                [((lookupGc (gcUpdate gcv qid st).1 qid).getD 0,
                  if mus pb.sseqid then 1 else 0)] } : Hit) ::
              (annotRows gcv mus qid rest (gcUpdate gcv qid st)).1,
            (annotRows gcv mus qid rest (gcUpdate gcv qid st)).2) := by
        simp [annotRows, e]
      have hup := gcUpdate_cacheLe gcv qid st
      obtain ⟨g0, hg0⟩ := gcUpdate_lookup gcv qid st
      have hAnn1 : ∀ r ∈ rest, AnnOk (gcUpdate gcv qid st).1 r :=
        fun r hr => annOk_mono hup (hAnn r (by simp [hr]))
      have hc1 := gcUpdate_callsOk gcv qid st hc
      obtain ⟨hle2, hc2, hA2⟩ := ih (gcUpdate gcv qid st) hAnn1 hc1
      rw [hred]
      refine ⟨cacheLe_trans hup hle2, hc2, ?_⟩
      intro r hr
      rcases List.mem_cons.mp hr with rfl | hr2
      · intro p hp
        simp only [List.mem_append, List.mem_singleton] at hp
        rcases hp with hp | rfl
        · exact annOk_mono (cacheLe_trans hup hle2) (hAnn pb (by simp)) p hp
        · simp only [e, hg0, Option.getD_some]
          exact hle2 qid g0 hg0
      · exact hA2 r hr2
    · have hred : annotRows gcv mus qid (pb :: rest) st =
          (pb :: (annotRows gcv mus qid rest st).1,
            (annotRows gcv mus qid rest st).2) := by
        simp [annotRows, e]
      have hAnn1 : ∀ r ∈ rest, AnnOk st.1 r :=
        fun r hr => hAnn r (by simp [hr])
      obtain ⟨hle2, hc2, hA2⟩ := ih st hAnn1 hc
      rw [hred]
      refine ⟨hle2, hc2, ?_⟩
      intro r hr
      rcases List.mem_cons.mp hr with rfl | hr2
      · exact annOk_mono hle2 (hAnn r (by simp))
      · exact hA2 r hr2

theorem annotateFasta_spec (gc : String → Rat) (mus : String → Bool)
    (ids : List String) (fasta : List (String × String)) :
    ∀ (rows : List Hit) (st : List (String × Rat) × List String),
      (∀ r ∈ rows, AnnOk st.1 r) → CallsOk st →
      CacheLe st.1 (annotateFasta gc mus ids fasta rows st).2.1 ∧
      CallsOk (annotateFasta gc mus ids fasta rows st).2 ∧
      ∀ r ∈ (annotateFasta gc mus ids fasta rows st).1,
        AnnOk (annotateFasta gc mus ids fasta rows st).2.1 r := by
  induction fasta with
  | nil =>
    intro rows st h hc
    exact ⟨cacheLe_refl _, hc, by simpa [annotateFasta] using h⟩
  | cons hs fas ih =>
    obtain ⟨header, seq⟩ := hs
    intro rows st h hc
    by_cases hq : fastaQid header ∈ ids
    · have hred : annotateFasta gc mus ids ((header, seq) :: fas) rows st =
          annotateFasta gc mus ids fas
            (annotRows (gc seq) mus (fastaQid header) rows st).1
            (annotRows (gc seq) mus (fastaQid header) rows st).2 := by
        simp [annotateFasta, hq]
      obtain ⟨l1, c1, a1⟩ := annotRows_spec (gc seq) mus (fastaQid header)
        rows st h hc
      obtain ⟨l2, c2, a2⟩ := ih _ _ a1 c1
      rw [hred]
      exact ⟨cacheLe_trans l1 l2, c2, a2⟩
    · have hred : annotateFasta gc mus ids ((header, seq) :: fas) rows st =
          annotateFasta gc mus ids fas rows st := by
        simp [annotateFasta, hq]
      rw [hred]
      exact ih rows st h hc

/-- C9: over the whole annotation stage, the `pct_gc` call log contains each
query id at most once (the `probes_gc` dict is consulted before every call),
and any two annotated rows sharing a query id carry the identical cached
`gc_pct` value in every one of their appended annotation pairs. -/
theorem targeted_annotate_gc_once (gc : String → Rat) (patterns : List String)
    (fasta : List (String × String)) (rows : List Hit)
    (h0 : ∀ r ∈ rows, r.ann = []) :
    (targetedAnnotate gc patterns fasta rows).2.2.Nodup ∧
    ∀ r1 ∈ (targetedAnnotate gc patterns fasta rows).1,
      ∀ r2 ∈ (targetedAnnotate gc patterns fasta rows).1,
        r1.qid = r2.qid →
        ∀ p1 ∈ r1.ann, ∀ p2 ∈ r2.ann, p1.1 = p2.1 := by
  unfold targetedAnnotate
  obtain ⟨_, hcalls, hann⟩ :=
    annotateFasta_spec gc (fun s => musicc_search patterns s)
      (rows.map Hit.qid) fasta rows ([], [])
      (by
        intro r hr p hp
        rw [h0 r hr] at hp
        cases hp)
      ⟨List.nodup_nil, by intro q hq; cases hq⟩
  refine ⟨hcalls.1, ?_⟩
  intro r1 h1 r2 h2 hq p1 hp1 p2 hp2
  have e1 := hann r1 h1 p1 hp1
  have e2 := hann r2 h2 p2 hp2
  rw [hq] at e1
  rw [e1] at e2
  injection e2

theorem targeted_annotate_gc_once_witness :
    (∀ r ∈ [Hit.mk "binA_p1" "s1" [], Hit.mk "binA_p1" "s2" []],
      r.ann = []) ∧
    ((targetedAnnotate (fun _ => (50 : Rat)) [] [(">binA_p1", "ACGT")]
        [Hit.mk "binA_p1" "s1" [], Hit.mk "binA_p1" "s2" []]).2.2.Nodup ∧
      ∀ r1 ∈ (targetedAnnotate (fun _ => (50 : Rat)) [] [(">binA_p1", "ACGT")]
          [Hit.mk "binA_p1" "s1" [], Hit.mk "binA_p1" "s2" []]).1,
        ∀ r2 ∈ (targetedAnnotate (fun _ => (50 : Rat)) [] [(">binA_p1", "ACGT")]
            [Hit.mk "binA_p1" "s1" [], Hit.mk "binA_p1" "s2" []]).1,
          r1.qid = r2.qid →
          ∀ p1 ∈ r1.ann, ∀ p2 ∈ r2.ann, p1.1 = p2.1) :=
  ⟨by decide,
   targeted_annotate_gc_once (fun _ => (50 : Rat)) [] [(">binA_p1", "ACGT")]
     [Hit.mk "binA_p1" "s1" [], Hit.mk "binA_p1" "s2" []] (by decide)⟩

theorem export_empty_class_writes_empty_file_witness :
    export_final_sets_class [] 2 true [1, 2] = [""] ∧
      2 ≤ (sample_population (inflated_count 0 2)).length :=
  export_empty_class_writes_empty_file 2 true [1, 2]
